import Mathlib

/-!
Verification development for the Confluence_AI repository: a shallow
embedding of the ingestion / chunking / embedding / upsert / query
pipeline, with theorems settling the spec claims.

Texts are modelled as lists of characters; fallible Python code is
modelled with Option and Except; machine floats used by the embedding
averaging are modelled over the rationals (the chunk counts and the
concrete vectors in the claims are exactly representable).
-/

/-! ## Chunking (src/utils/data_prep copy.py, chunk_text) -/

/-- Embedding of the Python `text.split(a period followed by a space)`:
scans left to right, cutting at every non-overlapping occurrence of the
two-character separator.  Always returns at least one piece. -/
def splitDS : List Char → List (List Char)
  | [] => [[]]
  | '.' :: ' ' :: rest => [] :: splitDS rest
  | c :: rest =>
    match splitDS rest with
    | [] => [[c]]
    | s :: ss => (c :: s) :: ss

/-- Embedding of the Python join with the period-space separator. -/
def joinDS : List (List Char) → List Char
  | [] => []
  | [s] => s
  | s :: ss => s ++ '.' :: ' ' :: joinDS ss

theorem splitDS_ne_nil (l : List Char) : splitDS l ≠ [] := by
  induction l using splitDS.induct with
  | case1 => simp [splitDS]
  | case2 rest ih => simp [splitDS]
  | case3 c rest h heq ih => exact absurd heq ih
  | case4 c rest h s ss heq ih =>
    simp only [splitDS, heq]
    simp

theorem joinDS_cons_cons (c : Char) (s : List Char) (ss : List (List Char)) :
    joinDS ((c :: s) :: ss) = c :: joinDS (s :: ss) := by
  cases ss <;> simp [joinDS]

theorem joinDS_splitDS (l : List Char) : joinDS (splitDS l) = l := by
  induction l using splitDS.induct with
  | case1 => simp [splitDS, joinDS]
  | case2 rest ih =>
    have h := splitDS_ne_nil rest
    simp only [splitDS]
    cases hs : splitDS rest with
    | nil => exact absurd hs h
    | cons s ss =>
      rw [hs] at ih
      simpa [joinDS] using ih
  | case3 c rest h heq ih => exact absurd heq (splitDS_ne_nil rest)
  | case4 c rest h s ss heq ih =>
    simp only [splitDS, heq]
    rw [joinDS_cons_cons]
    rw [heq] at ih
    rw [ih]

/-- Body of the accumulation loop of `chunk_text`: `rest` is the list of
sentences still to process, `currentChunk` the sentence accumulator,
`currentSize` the running token estimate, `chunks` the output so far.
Mirrors the Python loop including the final flush of a non-empty
accumulator (and the list-truthiness test on the accumulator). -/
def chunkLoop (maxChunkSize : Nat) :
    List (List Char) → List (List Char) → Nat → List (List Char) → List (List Char)
  | [], currentChunk, _, chunks =>
    if currentChunk.isEmpty then chunks
    else chunks ++ [joinDS currentChunk ++ ['.']]
  | sentence :: rest, currentChunk, currentSize, chunks =>
    let sentenceSize := sentence.length / 4
    if currentSize + sentenceSize > maxChunkSize then
      let chunks2 :=
        if currentChunk.isEmpty then chunks
        else chunks ++ [joinDS currentChunk ++ ['.']]
      chunkLoop maxChunkSize rest [sentence] sentenceSize chunks2
    else
      chunkLoop maxChunkSize rest (currentChunk ++ [sentence]) (currentSize + sentenceSize) chunks

/-- Embedding of `chunk_text(text, max_chunk_size=8000)`: split into
sentences at period-space boundaries, then greedily accumulate sentences
(token estimate: length divided by 4) into chunks. -/
def chunk_text (text : List Char) (maxChunkSize : Nat := 8000) : List (List Char) :=
  chunkLoop maxChunkSize (splitDS text) [] 0 []

/-- Estimated token count of a sentence list, as the loop sums it. -/
def sizeSum (sentences : List (List Char)) : Nat :=
  (sentences.map (fun s => s.length / 4)).sum

theorem chunkLoop_all_fit (maxChunkSize : Nat) :
    ∀ (rest currentChunk : List (List Char)) (currentSize : Nat)
      (chunks : List (List Char)),
      currentSize + sizeSum rest ≤ maxChunkSize →
      currentChunk ≠ [] ∨ rest ≠ [] →
      chunkLoop maxChunkSize rest currentChunk currentSize chunks =
        chunks ++ [joinDS (currentChunk ++ rest) ++ ['.']] := by
  intro rest
  induction rest with
  | nil =>
    intro currentChunk currentSize chunks _ hne
    have hcc : currentChunk ≠ [] := by
      rcases hne with h | h
      · exact h
      · exact absurd rfl h
    simp [chunkLoop, List.isEmpty_iff, hcc]
  | cons s rest ih =>
    intro currentChunk currentSize chunks hsz _
    have hs : sizeSum (s :: rest) = s.length / 4 + sizeSum rest := by
      simp [sizeSum]
    have hguard : ¬ currentSize + s.length / 4 > maxChunkSize := by
      omega
    simp only [chunkLoop, hguard, if_false]
    rw [ih (currentChunk ++ [s]) (currentSize + s.length / 4) chunks (by omega)
      (Or.inl (by simp))]
    simp

theorem chunkLoop_ne_nil (maxChunkSize : Nat) :
    ∀ (rest currentChunk : List (List Char)) (currentSize : Nat)
      (chunks : List (List Char)),
      currentChunk ≠ [] ∨ rest ≠ [] ∨ chunks ≠ [] →
      chunkLoop maxChunkSize rest currentChunk currentSize chunks ≠ [] := by
  intro rest
  induction rest with
  | nil =>
    intro currentChunk currentSize chunks hne
    by_cases hcc : currentChunk.isEmpty
    · have hcc2 : currentChunk = [] := by simpa [List.isEmpty_iff] using hcc
      have hch : chunks ≠ [] := by
        rcases hne with h | h | h
        · exact absurd hcc2 h
        · exact absurd rfl h
        · exact h
      simp [chunkLoop, hcc, hch]
    · simp [chunkLoop, hcc]
  | cons s rest ih =>
    intro currentChunk currentSize chunks _
    by_cases hguard : currentSize + s.length / 4 > maxChunkSize
    · simp only [chunkLoop, hguard, if_true]
      exact ih [s] (s.length / 4) _ (Or.inl (by simp))
    · simp only [chunkLoop, hguard, if_false]
      exact ih (currentChunk ++ [s]) (currentSize + s.length / 4) chunks
        (Or.inl (by simp))

theorem chunkLoop_ends_dot (maxChunkSize : Nat) :
    ∀ (rest currentChunk : List (List Char)) (currentSize : Nat)
      (chunks : List (List Char)),
      (∀ c ∈ chunks, c.getLast? = some '.') →
      ∀ c ∈ chunkLoop maxChunkSize rest currentChunk currentSize chunks,
        c.getLast? = some '.' := by
  intro rest
  induction rest with
  | nil =>
    intro currentChunk currentSize chunks hch c hc
    by_cases hcc : currentChunk.isEmpty
    · simp only [chunkLoop, hcc, if_true] at hc
      exact hch c hc
    · simp only [chunkLoop, hcc, if_false] at hc
      rcases List.mem_append.mp hc with h | h
      · exact hch c h
      · rcases List.mem_singleton.mp h with rfl
        simp
  | cons s rest ih =>
    intro currentChunk currentSize chunks hch c hc
    by_cases hguard : currentSize + s.length / 4 > maxChunkSize
    · simp only [chunkLoop, hguard, if_true] at hc
      refine ih [s] (s.length / 4) _ ?_ c hc
      intro d hd
      by_cases hcc : currentChunk.isEmpty
      · simp only [hcc, if_true] at hd
        exact hch d hd
      · simp only [hcc, if_false] at hd
        rcases List.mem_append.mp hd with h | h
        · exact hch d h
        · rcases List.mem_singleton.mp h with rfl
          simp
    · simp only [chunkLoop, hguard, if_false] at hc
      exact ih (currentChunk ++ [s]) (currentSize + s.length / 4) chunks hch c hc

/-- C1 counterexample: the input text with the claimed premise satisfied
(estimated token count far below the 8000 budget), on which `chunk_text`
returns one chunk that is the input plus a trailing period, hence not the
(already whitespace-normal) input itself. -/
theorem chunk_text_appends_period_cex :
    sizeSum (splitDS "Hello world".toList) < 8000 ∧
    chunk_text "Hello world".toList 8000 ≠ ["Hello world".toList] ∧
    chunk_text "Hello world".toList 8000 = ["Hello world.".toList] ∧
    "Hello world.".toList ≠ "Hello world".toList := by
  refine ⟨by decide, by decide, by decide, by decide⟩

/-- C1 (amended): for every text whose summed per-sentence token estimate
is below the budget, `chunk_text` returns exactly one chunk, equal to the
input text with a single terminating period appended. -/
theorem chunk_text_single_chunk (text : List Char) (maxChunkSize : Nat)
    (h : sizeSum (splitDS text) < maxChunkSize) :
    chunk_text text maxChunkSize = [text ++ ['.']] := by
  unfold chunk_text
  rw [chunkLoop_all_fit maxChunkSize (splitDS text) [] 0 []
    (by omega) (Or.inr (splitDS_ne_nil text))]
  simp [joinDS_splitDS]

/-- Witness for the amended C1 theorem at the concrete input. -/
theorem chunk_text_single_chunk_witness :
    chunk_text "Hi there".toList 8000 = ["Hi there.".toList] := by
  have h := chunk_text_single_chunk "Hi there".toList 8000 (by decide)
  simpa using h

/-- C9: `chunk_text` always returns a non-empty list of chunks, every
chunk ends in a period, and the empty string yields the single chunk
consisting of one period. -/
theorem chunk_text_nonempty_dot :
    (∀ text : List Char, chunk_text text 8000 ≠ []) ∧
    (∀ text : List Char, ∀ c ∈ chunk_text text 8000, c.getLast? = some '.') ∧
    chunk_text [] 8000 = [['.']] := by
  refine ⟨?_, ?_, by decide⟩
  · intro text
    exact chunkLoop_ne_nil 8000 (splitDS text) [] 0 []
      (Or.inr (Or.inl (splitDS_ne_nil text)))
  · intro text c hc
    exact chunkLoop_ends_dot 8000 (splitDS text) [] 0 [] (by simp) c hc

/-- Witness for C9 at a concrete input: the single chunk of a one-letter
text ends in a period. -/
theorem chunk_text_nonempty_dot_witness :
    (['a', '.'] : List Char).getLast? = some '.' := by
  exact chunk_text_nonempty_dot.2.1 ['a'] ['a', '.'] (by decide)

/-! ## Page tree walker (src/confluence_status.py) -/

/-- Line rendered for one page, as in `build_page_tree_lines`: four
spaces per indent level, then a dash, the title and the id. -/
def treeLine (indent : Nat) (pageId pageTitle : String) : String :=
  String.mk (List.replicate (indent * 4) ' ') ++ "- " ++ pageTitle ++
    " (ID: " ++ pageId ++ ")"

/-- Embedding of `build_page_tree_lines(page_id, page_title, indent)`.
The child listing `get_page_children` is modelled as a pure map from a
page id to its list of (id, title) children, and the unbounded Python
recursion is instrumented with a fuel parameter: `none` means the
recursion did not complete within the given depth.  The for-loop over
children is a left fold that extends the line list and adds the subtree
counts, starting from the line of this page itself and a count of 1.  No
visited set is kept, exactly as in the source. -/
def build_page_tree_lines (children : String → List (String × String)) :
    Nat → String → String → Nat → Option (List String × Nat)
  | 0, _, _, _ => none
  | fuel + 1, pageId, pageTitle, indent =>
    (children pageId).foldl
      (fun acc c =>
        match acc with
        | none => none
        | some (lines, subtreeCount) =>
          match build_page_tree_lines children fuel c.1 c.2 (indent + 1) with
          | none => none
          | some (childLines, childCount) =>
            some (lines ++ childLines, subtreeCount + childCount))
      (some ([treeLine indent pageId pageTitle], 1))

/-- The sequence of page ids visited by the same recursion (each call
visits its page, then recurses into each child in order), truncated at
the fuel bound. -/
def visitTrace (children : String → List (String × String)) :
    Nat → String → List String
  | 0, _ => []
  | fuel + 1, pageId =>
    pageId :: (children pageId).flatMap (fun c => visitTrace children fuel c.1)

/-- A cyclic child map: page A lists itself as its only child, so a
child points back to an ancestor. -/
def cycChildren : String → List (String × String) := fun _ => [("A", "A title")]

theorem build_cyc_none :
    ∀ fuel indent,
      build_page_tree_lines cycChildren fuel "A" "A title" indent = none := by
  intro fuel
  induction fuel with
  | zero => intro indent; rfl
  | succ n ih =>
    intro indent
    simp only [build_page_tree_lines, cycChildren, List.foldl_cons,
      List.foldl_nil, ih]

/-- C2 counterexample: on the concrete cyclic page tree, the recursive
walk never completes, whatever recursion depth it is granted. -/
theorem build_page_tree_cyc_cex :
    ¬ ∃ fuel, (build_page_tree_lines cycChildren fuel "A" "A title" 0).isSome := by
  rintro ⟨fuel, h⟩
  rw [build_cyc_none fuel 0] at h
  simp at h

/-- C2 (amended): `build_page_tree_lines` keeps no visited set, so on a
page tree containing a cycle the walk does not terminate — for every
fuel bound the recursion fails to complete — and the id on the cycle is
visited once per granted depth level, i.e. unboundedly often rather than
at most once. -/
theorem build_page_tree_cyc_diverges :
    (∀ fuel indent,
        build_page_tree_lines cycChildren fuel "A" "A title" indent = none) ∧
    (∀ fuel, (visitTrace cycChildren fuel "A").count "A" = fuel) := by
  refine ⟨build_cyc_none, ?_⟩
  intro fuel
  induction fuel with
  | zero => rfl
  | succ n ih =>
    simp only [visitTrace, cycChildren, List.flatMap_cons, List.flatMap_nil,
      List.append_nil, List.count_cons]
    simp [ih]

/-! ## Corpus builder (src/app_confluence.py, src/utils/data_prep copy.py) -/

/-- One DataFrame row of the scraper output: `content` and `is_internal`
are nullable columns (`none` models a missing value). -/
structure PageRow where
  id : String
  content : Option String
  is_internal : Option Bool
  title : String
  tiny_link : String
deriving DecidableEq

/-- The label-update pass of `delete_internal_only_records`: when
`fetch_labels` succeeds the flag is written into the row, on a failed
fetch (modelled as `none`) the row is left unchanged (a warning is
printed in the source). -/
def updateInternalFlag (labels : String → Option Bool) (r : PageRow) : PageRow :=
  match labels r.id with
  | some b => { r with is_internal := some b }
  | none => r

/-- Embedding of `delete_internal_only_records`: refresh in each row the
`is_internal` flag from the label fetch, then keep exactly the rows
whose flag is not equal to true (a missing flag also survives, as the
pandas comparison with NaN does). -/
def delete_internal_only_records (labels : String → Option Bool)
    (rows : List PageRow) : List PageRow :=
  (rows.map (updateInternalFlag labels)).filter
    (fun r => !(r.is_internal == some true))

/-- The JSON metadata object built per corpus row. -/
structure CorpusMetadata where
  source : String
  text : String
  page_id : String
  title : String
deriving DecidableEq

/-- One persisted corpus row: id plus the serialized metadata object. -/
structure CorpusRow where
  id : String
  metadata : CorpusMetadata
deriving DecidableEq

/-- The content filter of `clean_data_pinecone_schema`: keep a row iff
its content is present and non-empty. -/
def contentOk (r : PageRow) : Bool :=
  match r.content with
  | some s => !(s == "")
  | none => false

/-- Embedding of `clean_data_pinecone_schema`: drop rows with missing or
empty content; raise ValueError (modelled as `Except.error` with the
message of the source) when nothing is left; otherwise build the id/metadata
rows, with the source URL assembled from the Confluence base URL, the
fixed space path and the page id. -/
def clean_data_pinecone_schema (confluenceBaseUrl : String)
    (rows : List PageRow) : Except String (List CorpusRow) :=
  let kept := rows.filter contentOk
  if kept.isEmpty then
    .error "No valid data found in the CSV file after filtering empty content."
  else
    .ok (kept.map (fun r =>
      { id := r.id
        metadata :=
          { source := confluenceBaseUrl ++ "/spaces/BDDS/pages/" ++ r.id
            text := r.content.getD ""
            page_id := r.id
            title := r.title } }))

/-- C3: every row surviving the Corpus Builder stage — the internal-only
filter followed by the content filter of the schema cleaner — has
non-null, non-empty content and an `is_internal` flag that is not true,
and every persisted corpus row carries non-empty text. -/
theorem corpus_filter_invariant (labels : String → Option Bool)
    (rows : List PageRow) (confluenceBaseUrl : String)
    (out : List CorpusRow) :
    (∀ r ∈ delete_internal_only_records labels rows,
        r.is_internal ≠ some true) ∧
    (∀ r ∈ (delete_internal_only_records labels rows).filter contentOk,
        r.content ≠ none ∧ r.content ≠ some "" ∧ r.is_internal ≠ some true) ∧
    (clean_data_pinecone_schema confluenceBaseUrl
        (delete_internal_only_records labels rows) = .ok out →
      ∀ o ∈ out, o.metadata.text ≠ "") := by
  have hint : ∀ r ∈ delete_internal_only_records labels rows,
      r.is_internal ≠ some true := by
    intro r hr
    have := (List.mem_filter.mp hr).2
    simpa using this
  have hcontent : ∀ r : PageRow, contentOk r = true →
      r.content ≠ none ∧ r.content ≠ some "" := by
    intro r h
    cases hc : r.content with
    | none => rw [contentOk, hc] at h; simp at h
    | some s =>
      rw [contentOk, hc] at h
      refine ⟨by simp [hc], ?_⟩
      simp only [Bool.not_eq_true', beq_eq_false_iff_ne, ne_eq] at h
      simp [hc, h]
  refine ⟨hint, ?_, ?_⟩
  · intro r hr
    have h1 := List.mem_filter.mp hr
    have h2 := hcontent r h1.2
    exact ⟨h2.1, h2.2, hint r h1.1⟩
  · intro hok o ho
    unfold clean_data_pinecone_schema at hok
    by_cases hk :
        ((delete_internal_only_records labels rows).filter contentOk).isEmpty
    · rw [if_pos hk] at hok
      cases hok
    · rw [if_neg hk] at hok
      have hout := (Except.ok.injEq _ _).mp hok
      rw [← hout] at ho
      rcases List.mem_map.mp ho with ⟨r, hr, rfl⟩
      have h1 := List.mem_filter.mp hr
      have h2 := hcontent r h1.2
      cases hc : r.content with
      | none => exact absurd hc h2.1
      | some s =>
        have hne : s ≠ "" := by
          intro hs
          exact h2.2 (by rw [hc, hs])
        simpa [hc] using hne

/-- Witness for C3 at a concrete input: one non-internal row with
content survives the pipeline and its persisted text is non-empty. -/
theorem corpus_filter_invariant_witness :
    (PageRow.mk "1" (some "hello") none "T" "L").is_internal ≠ some true ∧
    (CorpusRow.mk "1"
      (CorpusMetadata.mk "b/spaces/BDDS/pages/1" "hello" "1" "T")).metadata.text
      ≠ "" := by
  constructor
  · exact (corpus_filter_invariant (fun _ => none)
      [PageRow.mk "1" (some "hello") none "T" "L"] "b" []).1
      (PageRow.mk "1" (some "hello") none "T" "L") (by decide)
  · exact (corpus_filter_invariant (fun _ => none)
      [PageRow.mk "1" (some "hello") none "T" "L"] "b"
      [CorpusRow.mk "1"
        (CorpusMetadata.mk "b/spaces/BDDS/pages/1" "hello" "1" "T")]).2.2
      (by rfl)
      (CorpusRow.mk "1"
        (CorpusMetadata.mk "b/spaces/BDDS/pages/1" "hello" "1" "T"))
      (by decide)

/-- C10: when the content of every row is missing or empty,
`clean_data_pinecone_schema` raises the ValueError instead of returning
an empty dataset. -/
theorem clean_data_all_empty_errors (confluenceBaseUrl : String)
    (rows : List PageRow) (h : ∀ r ∈ rows, contentOk r = false) :
    clean_data_pinecone_schema confluenceBaseUrl rows =
      .error "No valid data found in the CSV file after filtering empty content." := by
  have hnil : rows.filter contentOk = [] := by
    rw [List.filter_eq_nil_iff]
    intro r hr
    simp [h r hr]
  unfold clean_data_pinecone_schema
  rw [hnil]
  rfl

/-- Witness for C10 at a concrete input: one null-content row and one
empty-content row. -/
theorem clean_data_all_empty_errors_witness :
    clean_data_pinecone_schema "b"
      [PageRow.mk "1" none none "T" "L", PageRow.mk "2" (some "") none "U" "M"] =
      .error "No valid data found in the CSV file after filtering empty content." := by
  exact clean_data_all_empty_errors "b"
    [PageRow.mk "1" none none "T" "L", PageRow.mk "2" (some "") none "U" "M"]
    (by decide)

/-! ## Vector index manager (src/utils/pinecone_logic.py) -/

/-- Embedding of `get_pinecone_index`: the external Pinecone service
state is the list of existing index names; `create_index` appends the
name.  Returns the new service state, the index handle (its name) and
the `index_created` flag. -/
def get_pinecone_index (indexes : List String) (indexName : String) :
    List String × String × Bool :=
  if indexName ∈ indexes then (indexes, indexName, false)
  else (indexes ++ [indexName], indexName, true)

/-- C6: calling `get_pinecone_index` twice with the same name creates at
most one index — the second call reports `was_created = false`, leaves
the service state unchanged, and across both calls the name occurs at
most once more than before. -/
theorem get_pinecone_index_idempotent (indexes : List String)
    (indexName : String) :
    (get_pinecone_index (get_pinecone_index indexes indexName).1 indexName).2.2
      = false ∧
    (get_pinecone_index (get_pinecone_index indexes indexName).1 indexName).1
      = (get_pinecone_index indexes indexName).1 ∧
    (get_pinecone_index indexes indexName).1.count indexName
      ≤ indexes.count indexName + 1 := by
  by_cases h : indexName ∈ indexes
  · simp [get_pinecone_index, h]
  · simp [get_pinecone_index, h]

/-- One row ready for upsert: id, embedding vector and metadata, as
prepared from the DataFrame by `upsert_data`. -/
structure EmbeddedRow where
  id : String
  values : List ℚ
  metadata : CorpusMetadata
deriving DecidableEq

/-- The batching loop of `upsert_data`: accumulate prepared rows, issue
one upsert call (one element of the returned list) whenever the
accumulator reaches 200 rows, and flush any remaining rows after the
loop.  The returned list is the ordered sequence of upsert calls. -/
def upsertLoop : List EmbeddedRow → List EmbeddedRow →
    List (List EmbeddedRow) → List (List EmbeddedRow)
  | [], prepped, calls =>
    if prepped.length > 0 then calls ++ [prepped] else calls
  | r :: rest, prepped, calls =>
    let p := prepped ++ [r]
    if p.length ≥ 200 then upsertLoop rest [] (calls ++ [p])
    else upsertLoop rest p calls

/-- Embedding of `upsert_data`: the sequence of batched upsert calls
issued for the given rows. -/
def upsert_data (rows : List EmbeddedRow) : List (List EmbeddedRow) :=
  upsertLoop rows [] []

theorem upsertLoop_join :
    ∀ (rest prepped : List EmbeddedRow) (calls : List (List EmbeddedRow)),
      (upsertLoop rest prepped calls).flatten = calls.flatten ++ prepped ++ rest := by
  intro rest
  induction rest with
  | nil =>
    intro prepped calls
    by_cases h : prepped.length > 0
    · simp [upsertLoop, h]
    · have : prepped = [] := by
        cases prepped with
        | nil => rfl
        | cons a l => simp at h
      simp [upsertLoop, h, this]
  | cons r rest ih =>
    intro prepped calls
    by_cases h : (prepped ++ [r]).length ≥ 200
    · simp only [upsertLoop, h, if_true, ih]
      simp
    · simp only [upsertLoop, h, if_false, ih]
      simp

theorem upsertLoop_sizes :
    ∀ (rest prepped : List EmbeddedRow) (calls : List (List EmbeddedRow)),
      prepped.length < 200 →
      (∀ b ∈ calls, b.length = 200) →
      ∀ b ∈ (upsertLoop rest prepped calls).dropLast, b.length = 200 := by
  intro rest
  induction rest with
  | nil =>
    intro prepped calls hp hc b hb
    by_cases h : prepped.length > 0
    · simp only [upsertLoop, h, if_true] at hb
      rw [List.dropLast_concat] at hb
      exact hc b hb
    · simp only [upsertLoop, h, if_false] at hb
      exact hc b (List.dropLast_subset _ hb)
  | cons r rest ih =>
    intro prepped calls hp hc b hb
    by_cases h : (prepped ++ [r]).length ≥ 200
    · simp only [upsertLoop, h, if_true] at hb
      refine ih [] (calls ++ [prepped ++ [r]]) (by simp) ?_ b hb
      intro d hd
      rcases List.mem_append.mp hd with hd1 | hd1
      · exact hc d hd1
      · rcases List.mem_singleton.mp hd1 with rfl
        simp only [List.length_append, List.length_singleton]
        simp at h
        omega
    · simp only [upsertLoop, h, if_false] at hb
      have hlen : (prepped ++ [r]).length < 200 := by omega
      exact ih (prepped ++ [r]) calls hlen hc b hb

/-- The 450 identical rows of the claimed concrete scenario. -/
def rows450 : List EmbeddedRow :=
  List.replicate 450 (EmbeddedRow.mk "" [] (CorpusMetadata.mk "" "" "" ""))

set_option maxRecDepth 40000 in
/-- C4: `upsert_data` partitions the rows, in order, into fixed batches
of 200 with one upsert call per batch plus a final partial batch: every
call before the last carries exactly 200 rows, concatenating the calls
gives back the input rows, and for 450 rows exactly 3 calls are issued
with sizes 200, 200 and 50 in that order. -/
theorem upsert_data_batches :
    (∀ rows : List EmbeddedRow, (upsert_data rows).flatten = rows) ∧
    (∀ rows : List EmbeddedRow,
      ∀ b ∈ (upsert_data rows).dropLast, b.length = 200) ∧
    (upsert_data rows450).map List.length = [200, 200, 50] := by
  refine ⟨?_, ?_, by rfl⟩
  · intro rows
    simpa using upsertLoop_join rows [] []
  · intro rows b hb
    exact upsertLoop_sizes rows [] [] (by simp) (by simp) b hb

/-- Witness for C4 at a concrete input: with 201 rows the first (and
only non-final) batch holds exactly 200 rows, and the batches
concatenate back to the input. -/
theorem upsert_data_batches_witness :
    (upsert_data (List.replicate 201
        (EmbeddedRow.mk "" [] (CorpusMetadata.mk "" "" "" "")))).flatten =
      List.replicate 201 (EmbeddedRow.mk "" [] (CorpusMetadata.mk "" "" "" "")) ∧
    (List.replicate 200
        (EmbeddedRow.mk "" [] (CorpusMetadata.mk "" "" "" ""))).length = 200 := by
  constructor
  · exact upsert_data_batches.1 _
  · exact upsert_data_batches.2.1
      (List.replicate 201 (EmbeddedRow.mk "" [] (CorpusMetadata.mk "" "" "" "")))
      (List.replicate 200 (EmbeddedRow.mk "" [] (CorpusMetadata.mk "" "" "" "")))
      (by decide)

/-! ## Chunk-and-embed engine (src/utils/data_prep copy.py,
generate_embeddings_and_add_to_df) -/

/-- Element-wise vector addition (numpy addition of equal-length
vectors). -/
def addVec (a b : List ℚ) : List ℚ := List.zipWith (· + ·) a b

/-- Embedding of `np.mean(vs, axis=0)` on a list of equal-length
vectors: the element-wise sum divided by the number of vectors.  Floats
are modelled as rationals. -/
def np_mean_axis0 : List (List ℚ) → List ℚ
  | [] => []
  | v :: vs => (vs.foldl addVec v).map (fun x => x / ((vs.length : ℚ) + 1))

/-- The per-row body of `generate_embeddings_and_add_to_df`: skip a row
whose text is empty; otherwise chunk the text with the default budget,
collect the embeddings of the chunks on which the external model
succeeds (`create` returning `none` models a falsy response), and store
the element-wise mean of the collected chunk vectors, or no vector when
every chunk failed. -/
def generate_row_embedding (create : List Char → Option (List ℚ))
    (text : List Char) : Option (List ℚ) :=
  if text.isEmpty then none
  else
    let chunkEmbeddings := (chunk_text text 8000).filterMap create
    if chunkEmbeddings.isEmpty then none
    else some (np_mean_axis0 chunkEmbeddings)

/-- Embedding of `generate_embeddings_and_add_to_df` at the DataFrame
level: the vector of each row is computed from its metadata text, and rows
whose embedding failed are dropped (`dropna` on the values column). -/
def generate_embeddings_and_add_to_df (create : List Char → Option (List ℚ))
    (rows : List CorpusRow) : List (CorpusRow × List ℚ) :=
  rows.filterMap (fun r =>
    (generate_row_embedding create r.metadata.text.toList).map (fun v => (r, v)))

theorem np_mean_axis0_single (v : List ℚ) : np_mean_axis0 [v] = v := by
  unfold np_mean_axis0
  simp

/-- C5: the stored document vector is the element-wise arithmetic mean
of the successfully embedded chunk vectors; with exactly one successful
chunk vector the stored vector is that vector unchanged, and the mean of
the vectors (1,0) and (3,0) is (2,0). -/
theorem generate_row_embedding_mean :
    (∀ (create : List Char → Option (List ℚ)) (text : List Char)
        (es : List (List ℚ)),
      text ≠ [] → (chunk_text text 8000).filterMap create = es → es ≠ [] →
      generate_row_embedding create text = some (np_mean_axis0 es)) ∧
    (∀ (create : List Char → Option (List ℚ)) (text : List Char) (v : List ℚ),
      text ≠ [] → (chunk_text text 8000).filterMap create = [v] →
      generate_row_embedding create text = some v) ∧
    np_mean_axis0 [[1, 0], [3, 0]] = [2, 0] := by
  have hmain : ∀ (create : List Char → Option (List ℚ)) (text : List Char)
      (es : List (List ℚ)),
      text ≠ [] → (chunk_text text 8000).filterMap create = es → es ≠ [] →
      generate_row_embedding create text = some (np_mean_axis0 es) := by
    intro create text es htext hes hne
    unfold generate_row_embedding
    rw [if_neg (by simpa [List.isEmpty_iff] using htext)]
    simp only [hes]
    rw [if_neg (by simpa [List.isEmpty_iff] using hne)]
  refine ⟨hmain, ?_, by norm_num [np_mean_axis0, addVec]⟩
  intro create text v htext hv
  rw [hmain create text [v] htext hv (by simp)]
  rw [np_mean_axis0_single]

/-- Witness for C5 at a concrete input: a short text producing one
chunk, with an external model that returns the vector (5,7) — the stored
vector is (5,7) unchanged. -/
theorem generate_row_embedding_mean_witness :
    generate_row_embedding (fun _ => some [5, 7]) "Hi".toList = some [5, 7] := by
  exact generate_row_embedding_mean.2.1 (fun _ => some [5, 7]) "Hi".toList
    [5, 7] (by decide) (by decide)

/-! ## Paginated space listing (src/app_confluence.py, fetch_all_pages) -/

/-- Model of the Confluence listing endpoint for a space holding
`numPages` pages (ids 0, 1, ...): `fetch_pages(start, limit)` returns
the window of up to `limit` page ids from `start`, clamped at the end of
the space.  No total-count field is exposed to the loop: the source
reads the `size` field only for progress prints, never for control
flow. -/
def fetch_pages (numPages start limit : Nat) : List Nat :=
  List.range' start (min limit (numPages - start))

/-- Embedding of the `fetch_all_pages` while-loop, instrumented with
fuel (`none` models a run that did not finish within the bound).  Each
iteration requests `min limit max_chunk_size` pages, appends the
results, records the call as (requested, returned), and stops as soon as
a call returns fewer results than requested (end of space) or the
remaining limit reaches zero. -/
def fetchAllPagesLoop (numPages maxChunkSize : Nat) :
    Nat → Nat → Nat → List Nat → List (Nat × Nat) →
    Option (List Nat × List (Nat × Nat))
  | 0, _, _, _, _ => none
  | fuel + 1, start, limit, allPages, calls =>
    let chunkSize := min limit maxChunkSize
    let results := fetch_pages numPages start chunkSize
    let fetched := results.length
    let allPages2 := allPages ++ results
    let calls2 := calls ++ [(chunkSize, fetched)]
    if fetched < chunkSize then some (allPages2, calls2)
    else if limit - fetched = 0 then some (allPages2, calls2)
    else fetchAllPagesLoop numPages maxChunkSize fuel (start + fetched)
      (limit - fetched) allPages2 calls2

/-- Embedding of `fetch_all_pages(all_pages=[], start, limit)` with the
default `max_chunk_size=200`, with enough fuel for the loop to decrease
the limit to zero. -/
def fetch_all_pages (numPages start limit : Nat) :
    Option (List Nat × List (Nat × Nat)) :=
  fetchAllPagesLoop numPages 200 (limit + 1) start limit [] []

theorem fetchAllPagesLoop_terminates (numPages : Nat) :
    ∀ (fuel limit start : Nat) (allPages : List Nat)
      (calls : List (Nat × Nat)),
      limit < fuel →
      (fetchAllPagesLoop numPages 200 fuel start limit allPages calls).isSome := by
  intro fuel
  induction fuel with
  | zero => intro limit start allPages calls h; omega
  | succ f ih =>
    intro limit start allPages calls h
    simp only [fetchAllPagesLoop]
    by_cases h1 : (fetch_pages numPages start (min limit 200)).length <
        min limit 200
    · simp [h1]
    · rw [if_neg h1]
      by_cases h2 :
          limit - (fetch_pages numPages start (min limit 200)).length = 0
      · simp [h2]
      · rw [if_neg h2]
        apply ih
        have hlen : (fetch_pages numPages start (min limit 200)).length =
            min (min limit 200) (numPages - start) := by
          simp [fetch_pages]
        omega

set_option maxRecDepth 100000 in
/-- C7: the flat space-wide fetch terminates for every space size and
requested limit (the loop stops on a short batch or an exhausted limit,
never consulting a total-count field), and when the space holds fewer
pages than the requested limit it stops right after the first batch that
comes back short: a space of 150 pages under a limit of 2000 is fetched
in one short call, and a space of 450 pages in two full calls plus the
first short call, with nothing fetched past it. -/
theorem fetch_all_pages_stops_on_short_batch :
    (∀ numPages start limit,
      (fetch_all_pages numPages start limit).isSome) ∧
    fetch_all_pages 150 0 2000 = some (List.range' 0 150, [(200, 150)]) ∧
    fetch_all_pages 450 0 2000 =
      some (List.range' 0 450, [(200, 200), (200, 200), (200, 50)]) := by
  refine ⟨?_, by decide, ?_⟩
  · intro numPages start limit
    exact fetchAllPagesLoop_terminates numPages (limit + 1) limit start [] []
      (by omega)
  · show fetchAllPagesLoop 450 200 2001 0 2000 [] [] = _
    decide

/-! ## Query attribution (src/streamlit_app.py, extract_info and main) -/

/-- Metadata carried by one retrieved match: every field is optional
(the stored dictionary may lack it). -/
structure MatchMetadata where
  page_id : Option String
  title : Option String
  source : Option String
deriving DecidableEq

/-- One retrieved match: metadata plus similarity score. -/
structure QueryMatch where
  metadata : MatchMetadata
  score : ℚ
deriving DecidableEq

/-- Python truthiness of an optional string: present and non-empty. -/
def truthyStr : Option String → Bool
  | none => false
  | some s => !(s == "")

/-- The body of the per-match attribution: build the canonical URL when
a (truthy) page id is present, otherwise fall back to the stored source
URL; a missing source raises (modelled as `Except.error`).  The title
falls back to a default instead of raising. -/
def extractOne (confluenceBaseUrl : String) (m : QueryMatch) :
    Except Unit (String × String × ℚ) :=
  let title := m.metadata.title.getD "No title"
  if truthyStr m.metadata.page_id then
    .ok (confluenceBaseUrl ++ "/spaces/BDDS/pages/" ++ m.metadata.page_id.getD "",
      title, m.score)
  else
    match m.metadata.source with
    | some s => .ok (s, title, m.score)
    | none => .error ()

/-- The for-loop of `extract_info`: the first raising match aborts the
whole loop (the try/except surrounds the loop, not its body). -/
def extractInfoLoop (confluenceBaseUrl : String) :
    List QueryMatch → Except Unit (List (String × String × ℚ))
  | [] => .ok []
  | m :: rest =>
    match extractOne confluenceBaseUrl m with
    | .error e => .error e
    | .ok t =>
      match extractInfoLoop confluenceBaseUrl rest with
      | .error e => .error e
      | .ok ts => .ok (t :: ts)

/-- Embedding of `extract_info`: on any raised error the except handler
returns the empty list. -/
def extract_info (confluenceBaseUrl : String) (ms : List QueryMatch) :
    List (String × String × ℚ) :=
  match extractInfoLoop confluenceBaseUrl ms with
  | .ok l => l
  | .error _ => []

/-- The tail of `main`: the final output always concatenates the model
response with the formatted attribution lines of `extract_info`; the
enclosing try/except means a returned string is always produced. -/
def main_query_output (response confluenceBaseUrl : String)
    (ms : List QueryMatch) : Option String :=
  some (response ++ "\n\n" ++
    String.intercalate "\n\n"
      ((extract_info confluenceBaseUrl ms).map
        (fun t => "[" ++ t.2.1 ++ "](" ++ t.1 ++ ")    Score: " ++
          toString t.2.2)))

/-- A match whose metadata lacks both the page id and the source URL. -/
def isBadMatch (m : QueryMatch) : Bool :=
  !(truthyStr m.metadata.page_id) && m.metadata.source.isNone

theorem extractInfoLoop_bad_errors (confluenceBaseUrl : String) :
    ∀ ms : List QueryMatch, ms.any isBadMatch = true →
      extractInfoLoop confluenceBaseUrl ms = .error () := by
  intro ms
  induction ms with
  | nil => intro h; simp at h
  | cons m rest ih =>
    intro h
    by_cases hm : isBadMatch m = true
    · have hpid : truthyStr m.metadata.page_id = false := by
        have := hm
        unfold isBadMatch at this
        simp only [Bool.and_eq_true, Bool.not_eq_true'] at this
        exact this.1
      have hsrc : m.metadata.source = none := by
        have := hm
        unfold isBadMatch at this
        simp only [Bool.and_eq_true, Option.isNone_iff_eq_none] at this
        exact this.2
      simp only [extractInfoLoop, extractOne, hpid, Bool.false_eq_true,
        if_false, hsrc]
    · have hrest : rest.any isBadMatch = true := by
        simp only [List.any_cons, Bool.or_eq_true] at h
        rcases h with h | h
        · exact absurd h hm
        · exact h
      simp only [extractInfoLoop, ih hrest]
      cases extractOne confluenceBaseUrl m <;> rfl

/-- C8 counterexample: with one attributable match and one match missing
both page id and source, `extract_info` returns no triples at all —
while the same attributable match alone yields its triple — so the
failing match does not merely have its own attribution skipped. -/
theorem extract_info_drops_all_cex :
    extract_info "https://pickme.atlassian.net/wiki"
      [QueryMatch.mk (MatchMetadata.mk (some "123") (some "T1") none) 1,
       QueryMatch.mk (MatchMetadata.mk none (some "T2") none) 2] = [] ∧
    extract_info "https://pickme.atlassian.net/wiki"
      [QueryMatch.mk (MatchMetadata.mk (some "123") (some "T1") none) 1] =
      [("https://pickme.atlassian.net/wiki/spaces/BDDS/pages/123", "T1", 1)] := by
  constructor <;> rfl

/-- C8 (amended): a match missing the metadata needed for attribution
aborts the whole `extract_info` call — the exception handler wraps the
loop, so the call returns the empty list and the attribution of every other match
is lost too — but the query as a whole still returns an
answer (the response text with an empty source list). -/
theorem extract_info_error_granularity :
    (∀ (confluenceBaseUrl : String) (ms : List QueryMatch),
      ms.any isBadMatch = true →
      extract_info confluenceBaseUrl ms = []) ∧
    (∀ (response confluenceBaseUrl : String) (ms : List QueryMatch),
      (main_query_output response confluenceBaseUrl ms).isSome = true) := by
  constructor
  · intro confluenceBaseUrl ms h
    unfold extract_info
    rw [extractInfoLoop_bad_errors confluenceBaseUrl ms h]
  · intro response confluenceBaseUrl ms
    rfl

/-- Witness for the amended C8 theorem at a concrete input: one good and
one bad match give an empty attribution list, and the query output is
still produced. -/
theorem extract_info_error_granularity_witness :
    extract_info "b"
      [QueryMatch.mk (MatchMetadata.mk (some "123") (some "T1") none) 1,
       QueryMatch.mk (MatchMetadata.mk none (some "T2") none) 2] = [] ∧
    (main_query_output "answer" "b"
      [QueryMatch.mk (MatchMetadata.mk none (some "T2") none) 2]).isSome
      = true := by
  constructor
  · exact extract_info_error_granularity.1 "b"
      [QueryMatch.mk (MatchMetadata.mk (some "123") (some "T1") none) 1,
       QueryMatch.mk (MatchMetadata.mk none (some "T2") none) 2] (by decide)
  · exact extract_info_error_granularity.2 "answer" "b"
      [QueryMatch.mk (MatchMetadata.mk none (some "T2") none) 2]
